import Mathlib

/-!
Shallow embedding of the centimani HTTP stack (NoZip/centimani), covering the
parts of the code referenced by the specification claims:

* `centimani/http2/hpack.py`   — HPACK integer coding, context (dynamic table),
  decoder branches.
* `centimani/http2/huffman.py` — Huffman codebook, tree building, encode/decode.
* `centimani/headers.py`       — header line parsing.
* `centimani/server/http1.py`  — request body-length validation and keep-alive
  derivation in `Http1Transport.receive_request`.
* `centimani/client/http1.py`  — semaphore release in `Http1Connection.fetch`.
* `centimani/streamutils.py`   — `BufferedBodyReader.__anext__`.

Python byte strings are modelled as `List Nat` (each element a byte value),
text strings as Lean `String`, iterators as lists consumed from the front
(`next` on an exhausted iterator, i.e. `StopIteration`, is modelled by
`Option`/`Except` failure), and exceptions as explicit error results.
-/

namespace Centimani

/-! ## HPACK integer coding (`hpack.py`, `HpackEncoder._encode_int` /
`HpackDecoder._decode_int`) -/

namespace Hpack

/-- Continuation-byte loop of `HpackEncoder._encode_int`: Python's
`while value >= 128: value, chunk = divmod(value, 128); chunk |= 0x80;
data.append(chunk)` followed by `data.append(value)`. -/
def encodeIntLoop (value : Nat) : List Nat :=
  if h : value ≥ 128 then
    (value % 128 ||| 0x80) :: encodeIntLoop (value / 128)
  else
    [value]
  termination_by value
  decreasing_by exact Nat.div_lt_self (by omega) (by omega)

/-- Translation of `HpackEncoder._encode_int(value, prefix_length, bit_pattern)`.
Returns the emitted byte sequence. -/
def encode_int (value prefixLength bitPattern : Nat) : List Nat :=
  let mask := (1 <<< prefixLength) - 1
  if value < mask then
    [value ||| bitPattern]
  else
    (mask ||| bitPattern) :: encodeIntLoop (value - mask)

/-- Continuation-byte loop of `HpackDecoder._decode_int`: Python's
`byte = 0x80; while byte & 0x80: byte = next(iterator);
value += (byte & 0x7F) << chunk_shift; chunk_shift += 7`.
The iterator is a list; exhaustion (`StopIteration`) yields `none`.
Returns the decoded value together with the unconsumed bytes. -/
def decodeIntLoop : List Nat → Nat → Nat → Option (Nat × List Nat)
  | [], _, _ => none
  | b :: rest, chunkShift, value =>
    let value := value + (b &&& 0x7F) <<< chunkShift
    if b &&& 0x80 ≠ 0 then
      decodeIntLoop rest (chunkShift + 7) value
    else
      some (value, rest)

/-- Translation of `HpackDecoder._decode_int(iterator, prefix_length)` where the
first byte is taken from the iterator (the `first_byte is None` path).
Returns the decoded integer and the unconsumed bytes. -/
def decode_int (bytes : List Nat) (prefixLength : Nat) : Option (Nat × List Nat) :=
  match bytes with
  | [] => none
  | firstByte :: rest =>
    let mask := (1 <<< prefixLength) - 1
    let fb := firstByte &&& mask
    if fb < mask then
      some (fb, rest)
    else
      decodeIntLoop rest 0 fb


/-! ## HPACK context (`hpack.py`, class `HpackContext`) -/

/-- Header table entry: a Python tuple of one string (static-table name-only
entries) or two strings (name, value). -/
abbrev Entry : Type := String × Option String

/-- Translation of `HpackContext._entry_size`:
`32 + sum(len(s.encode("ascii")) for s in entry)`. Strings are ASCII, so the
length of `s.encode("ascii")` is the character count. -/
def entrySize (e : Entry) : Nat :=
  32 + e.1.length + (e.2.map String.length).getD 0

/-- State of an `HpackContext`: protocol limit, HPACK max size, the dynamic
table (most recently inserted entry first, as in the Python list where
`insert(0, ...)` adds at the front), and the cached byte size `_size`. -/
structure HpackContext where
  limit : Nat
  max_size : Nat
  dynamic_table : List Entry
  size : Nat

/-- Eviction loop shared by `HpackContext.add` and `HpackContext.set_max_size`:
`while self._size > self._max_size: entry = self._dynamic_table.pop(-1);
self._size -= self._entry_size(entry)`. The table is passed reversed (oldest
entry first), so `pop(-1)` removes the head. `none` models the `IndexError`
Python would raise when popping from an empty table; the theorems below show
this never happens while `_size` is the sum of the entry sizes. -/
def evictLoop (maxSize : Nat) (revTable : List Entry) (size : Nat) :
    Option (List Entry × Nat) :=
  if size ≤ maxSize then some (revTable, size)
  else
    match revTable with
    | [] => none
    | e :: rest => evictLoop maxSize rest (size - entrySize e)

/-- Translation of `HpackContext.add`: insert the new entry at the front,
grow `_size`, then run the eviction loop. -/
def HpackContext.add (ctx : HpackContext) (hf : Entry) : Option HpackContext :=
  let table := hf :: ctx.dynamic_table
  let size := ctx.size + entrySize hf
  match evictLoop ctx.max_size table.reverse size with
  | none => none
  | some (revTable, size') =>
    some { ctx with dynamic_table := revTable.reverse, size := size' }

/-- Translation of `HpackContext.set_max_size`; the `ValueError` raised when
`value > self._limit` is an `Except.error`. -/
def HpackContext.set_max_size (ctx : HpackContext) (value : Nat) :
    Except String HpackContext :=
  if value > ctx.limit then .error "max size must be lower than limit"
  else
    match evictLoop value ctx.dynamic_table.reverse ctx.size with
    | none => .error "IndexError"
    | some (revTable, size') =>
      .ok { ctx with max_size := value,
                     dynamic_table := revTable.reverse, size := size' }

/-- Translation of `HpackContext.set_limit`: store the new limit, then shrink
`max_size` to it if the old `max_size` exceeds it. -/
def HpackContext.set_limit (ctx : HpackContext) (value : Nat) :
    Except String HpackContext :=
  let ctx' := { ctx with limit := value }
  if ctx'.max_size > ctx'.limit then ctx'.set_max_size ctx'.limit
  else .ok ctx'

/-- Size accounting: the cached `_size` equals the sum of the entry sizes of
the dynamic table (true of every context the class constructs). -/
def HpackContext.Accounted (ctx : HpackContext) : Prop :=
  ctx.size = (ctx.dynamic_table.map entrySize).sum

/-- The invariant from the specification: `current_size ≤ max_size ≤ limit`. -/
def HpackContext.SizeInv (ctx : HpackContext) : Prop :=
  ctx.size ≤ ctx.max_size ∧ ctx.max_size ≤ ctx.limit

end Hpack

/-! ## Huffman coding (`http2/huffman.py`) -/

namespace Huffman

/-- The canonical 257-symbol RFC 7541 codebook `HUFFMAN_CODEBOOK` of the
source, as `(code, bit_length)` pairs (index 256 is the EOS symbol). -/
def HUFFMAN_CODEBOOK : List (Nat × Nat) := [
  (0x1ff8, 13), (0x7fffd8, 23), (0xfffffe2, 28), (0xfffffe3, 28),
  (0xfffffe4, 28), (0xfffffe5, 28), (0xfffffe6, 28), (0xfffffe7, 28),
  (0xfffffe8, 28), (0xffffea, 24), (0x3ffffffc, 30), (0xfffffe9, 28),
  (0xfffffea, 28), (0x3ffffffd, 30), (0xfffffeb, 28), (0xfffffec, 28),
  (0xfffffed, 28), (0xfffffee, 28), (0xfffffef, 28), (0xffffff0, 28),
  (0xffffff1, 28), (0xffffff2, 28), (0x3ffffffe, 30), (0xffffff3, 28),
  (0xffffff4, 28), (0xffffff5, 28), (0xffffff6, 28), (0xffffff7, 28),
  (0xffffff8, 28), (0xffffff9, 28), (0xffffffa, 28), (0xffffffb, 28),
  (0x14, 6), (0x3f8, 10), (0x3f9, 10), (0xffa, 12),
  (0x1ff9, 13), (0x15, 6), (0xf8, 8), (0x7fa, 11),
  (0x3fa, 10), (0x3fb, 10), (0xf9, 8), (0x7fb, 11),
  (0xfa, 8), (0x16, 6), (0x17, 6), (0x18, 6),
  (0x0, 5), (0x1, 5), (0x2, 5), (0x19, 6),
  (0x1a, 6), (0x1b, 6), (0x1c, 6), (0x1d, 6),
  (0x1e, 6), (0x1f, 6), (0x5c, 7), (0xfb, 8),
  (0x7ffc, 15), (0x20, 6), (0xffb, 12), (0x3fc, 10),
  (0x1ffa, 13), (0x21, 6), (0x5d, 7), (0x5e, 7),
  (0x5f, 7), (0x60, 7), (0x61, 7), (0x62, 7),
  (0x63, 7), (0x64, 7), (0x65, 7), (0x66, 7),
  (0x67, 7), (0x68, 7), (0x69, 7), (0x6a, 7),
  (0x6b, 7), (0x6c, 7), (0x6d, 7), (0x6e, 7),
  (0x6f, 7), (0x70, 7), (0x71, 7), (0x72, 7),
  (0xfc, 8), (0x73, 7), (0xfd, 8), (0x1ffb, 13),
  (0x7fff0, 19), (0x1ffc, 13), (0x3ffc, 14), (0x22, 6),
  (0x7ffd, 15), (0x3, 5), (0x23, 6), (0x4, 5),
  (0x24, 6), (0x5, 5), (0x25, 6), (0x26, 6),
  (0x27, 6), (0x6, 5), (0x74, 7), (0x75, 7),
  (0x28, 6), (0x29, 6), (0x2a, 6), (0x7, 5),
  (0x2b, 6), (0x76, 7), (0x2c, 6), (0x8, 5),
  (0x9, 5), (0x2d, 6), (0x77, 7), (0x78, 7),
  (0x79, 7), (0x7a, 7), (0x7b, 7), (0x7ffe, 15),
  (0x7fc, 11), (0x3ffd, 14), (0x1ffd, 13), (0xffffffc, 28),
  (0xfffe6, 20), (0x3fffd2, 22), (0xfffe7, 20), (0xfffe8, 20),
  (0x3fffd3, 22), (0x3fffd4, 22), (0x3fffd5, 22), (0x7fffd9, 23),
  (0x3fffd6, 22), (0x7fffda, 23), (0x7fffdb, 23), (0x7fffdc, 23),
  (0x7fffdd, 23), (0x7fffde, 23), (0xffffeb, 24), (0x7fffdf, 23),
  (0xffffec, 24), (0xffffed, 24), (0x3fffd7, 22), (0x7fffe0, 23),
  (0xffffee, 24), (0x7fffe1, 23), (0x7fffe2, 23), (0x7fffe3, 23),
  (0x7fffe4, 23), (0x1fffdc, 21), (0x3fffd8, 22), (0x7fffe5, 23),
  (0x3fffd9, 22), (0x7fffe6, 23), (0x7fffe7, 23), (0xffffef, 24),
  (0x3fffda, 22), (0x1fffdd, 21), (0xfffe9, 20), (0x3fffdb, 22),
  (0x3fffdc, 22), (0x7fffe8, 23), (0x7fffe9, 23), (0x1fffde, 21),
  (0x7fffea, 23), (0x3fffdd, 22), (0x3fffde, 22), (0xfffff0, 24),
  (0x1fffdf, 21), (0x3fffdf, 22), (0x7fffeb, 23), (0x7fffec, 23),
  (0x1fffe0, 21), (0x1fffe1, 21), (0x3fffe0, 22), (0x1fffe2, 21),
  (0x7fffed, 23), (0x3fffe1, 22), (0x7fffee, 23), (0x7fffef, 23),
  (0xfffea, 20), (0x3fffe2, 22), (0x3fffe3, 22), (0x3fffe4, 22),
  (0x7ffff0, 23), (0x3fffe5, 22), (0x3fffe6, 22), (0x7ffff1, 23),
  (0x3ffffe0, 26), (0x3ffffe1, 26), (0xfffeb, 20), (0x7fff1, 19),
  (0x3fffe7, 22), (0x7ffff2, 23), (0x3fffe8, 22), (0x1ffffec, 25),
  (0x3ffffe2, 26), (0x3ffffe3, 26), (0x3ffffe4, 26), (0x7ffffde, 27),
  (0x7ffffdf, 27), (0x3ffffe5, 26), (0xfffff1, 24), (0x1ffffed, 25),
  (0x7fff2, 19), (0x1fffe3, 21), (0x3ffffe6, 26), (0x7ffffe0, 27),
  (0x7ffffe1, 27), (0x3ffffe7, 26), (0x7ffffe2, 27), (0xfffff2, 24),
  (0x1fffe4, 21), (0x1fffe5, 21), (0x3ffffe8, 26), (0x3ffffe9, 26),
  (0xffffffd, 28), (0x7ffffe3, 27), (0x7ffffe4, 27), (0x7ffffe5, 27),
  (0xfffec, 20), (0xfffff3, 24), (0xfffed, 20), (0x1fffe6, 21),
  (0x3fffe9, 22), (0x1fffe7, 21), (0x1fffe8, 21), (0x7ffff3, 23),
  (0x3fffea, 22), (0x3fffeb, 22), (0x1ffffee, 25), (0x1ffffef, 25),
  (0xfffff4, 24), (0xfffff5, 24), (0x3ffffea, 26), (0x7ffff4, 23),
  (0x3ffffeb, 26), (0x7ffffe6, 27), (0x3ffffec, 26), (0x3ffffed, 26),
  (0x7ffffe7, 27), (0x7ffffe8, 27), (0x7ffffe9, 27), (0x7ffffea, 27),
  (0x7ffffeb, 27), (0xffffffe, 28), (0x7ffffec, 27), (0x7ffffed, 27),
  (0x7ffffee, 27), (0x7ffffef, 27), (0x7fffff0, 27), (0x3ffffee, 26),
  (0x3fffffff, 30)]

/-- The bits of `code`, most significant first, padded to `len` positions:
the binary-digit string of the source, zero-filled to the code bit length. -/
def toBits (code len : Nat) : List Bool :=
  (List.range len).map (fun i => code.testBit (len - 1 - i))

/-- Binary tree of the decoder: leaves are character codes; a missing child
(`None` in the source) is `none` at the `Option` layer. -/
inductive HTree where
  | leaf (c : Nat)
  | node (left right : Option HTree)

/-- Rank of the first element of the sequence whose code has a one-bit at
position `index`, or the sequence length when there is none (the scan with
`break` in `_Node.from_sequence`). -/
def splitIndex (seq : List (List Bool × Nat)) (index : Nat) : Nat :=
  match seq.findIdx? (fun cv => decide (index < cv.1.length) && cv.1.getD index false) with
  | some i => i
  | none => seq.length

/-- Translation of `_Node.from_sequence`, fuelled (the source recursion has
no termination guarantee for arbitrary inputs; fuel 64 is ample for the
30-bit codebook). `none` models every raising path: the guards for
single-object and unsplittable sequences, and the `NameError` of the
`left_node == None` branch (which never assigns `left_node`). An empty
right part yields a `none` child, as in the source. -/
def fromSequence : Nat → List (List Bool × Nat) → Nat → Option HTree
  | 0, _, _ => none
  | fuel + 1, seq, index =>
    if seq.length < 2 then none
    else
      let si := splitIndex seq index
      if seq.length == 2 && si != 1 then none
      else
        let left := seq.take si
        let right := seq.drop si
        let leftChild : Option (Option HTree) :=
          match left with
          | [] => none
          | [(_, c)] => some (some (.leaf c))
          | _ => (fromSequence fuel left (index + 1)).map some
        let rightChild : Option (Option HTree) :=
          match right with
          | [] => some none
          | [(_, c)] => some (some (.leaf c))
          | _ => (fromSequence fuel right (index + 1)).map some
        match leftChild, rightChild with
        | some l, some r => some (.node l r)
        | _, _ => none

/-- Lexicographic comparison of binary-digit strings (zero before one, a
prefix before its extensions): the order `sorted` uses on the code
strings. -/
def codeLe : List Bool → List Bool → Bool
  | [], _ => true
  | _ :: _, [] => false
  | a :: as, b :: bs => if a = b then codeLe as bs else !a && b

/-- Stable merge of two code-sorted lists (fuelled so that the recursion is
structural and kernel-evaluable; fuel at least the total length suffices). -/
def mergeByCode (fuel : Nat) (l1 l2 : List (List Bool × Nat)) :
    List (List Bool × Nat) :=
  match fuel with
  | 0 => l1 ++ l2
  | fuel + 1 =>
    match l1, l2 with
    | [], ys => ys
    | x :: xs, [] => x :: xs
    | x :: xs, y :: ys =>
      if codeLe x.1 y.1 then x :: mergeByCode fuel xs (y :: ys)
      else y :: mergeByCode fuel (x :: xs) ys

/-- A stable merge sort by code string, modelling Python `sorted` with the
string key (the codebook codes are pairwise distinct, so every sort produces
the same list). The fuel bounds the recursion depth; the list length is
ample. -/
def msortByCode (fuel : Nat) (l : List (List Bool × Nat)) :
    List (List Bool × Nat) :=
  match fuel with
  | 0 => l
  | fuel + 1 =>
    match l with
    | [] => []
    | [x] => [x]
    | _ =>
      let n := l.length / 2
      mergeByCode l.length (msortByCode fuel (l.take n)) (msortByCode fuel (l.drop n))

/-- Sort the lookup table by code string. -/
def sortByCode (l : List (List Bool × Nat)) : List (List Bool × Nat) :=
  msortByCode l.length l

/-- Translation of `_build_huffman_tree`: enumerate the codebook as
`(code bits, character)` pairs, sort by code, build the tree. -/
def buildHuffmanTree : Option HTree :=
  let charMap := HUFFMAN_CODEBOOK.enum.map (fun p => (toBits p.2.1 p.2.2, p.1))
  let lookupTable := sortByCode charMap
  fromSequence 64 lookupTable 0

/-- The code bits appended for one input byte by `encode`
(`HUFFMAN_CODEBOOK[char]` rendered as its binary-digit string). -/
def symbolBits (c : Nat) : List Bool :=
  let p := HUFFMAN_CODEBOOK.getD c (0, 0)
  toBits p.1 p.2

/-- Python `int(bin_byte, base=2)` on a string of binary digits. -/
def bitsToNat (bs : List Bool) : Nat := bs.foldl (fun acc b => acc * 2 + b.toNat) 0

/-- Byte packing of `encode`: the source slices the digit string into
`byte_count = len // 8` full 8-bit groups, then emits the final partial
group shifted left by the padding and or-ed with `(1 << padding) - 1`
(one-bits). The translation consumes the same 8-bit groups from the front;
the final clause is the source's last-byte formula verbatim. -/
def pack : List Bool → List Nat
  | b0 :: b1 :: b2 :: b3 :: b4 :: b5 :: b6 :: b7 :: rest =>
    bitsToNat [b0, b1, b2, b3, b4, b5, b6, b7] :: pack rest
  | [] => []
  | bits => [(bitsToNat bits) <<< (8 - bits.length) ||| ((1 <<< (8 - bits.length)) - 1)]

/-- Translation of `huffman.encode` on a byte string. -/
def encode (s : List Nat) : List Nat := pack ((s.map symbolBits).flatten)

/-- The bit list the decoder derives from one byte, each mask result
`byte & (0x80 >> shift)` for `shift` in 0..7 taken by its truthiness. -/
def byteBits (byte : Nat) : List Bool :=
  (List.range 8).map (fun shift => (byte &&& (0x80 >>> shift)) != 0)

/-- One tree step of `decode`: `current_node.right` on a one bit,
`current_node.left` on a zero bit. `none` covers both a missing child (the
unknown-code raise) and stepping from a leaf (an `AttributeError` in the
source); either way `decode` fails. -/
def step (t : HTree) (b : Bool) : Option HTree :=
  match t with
  | .leaf _ => none
  | .node l r => if b then r else l

/-- The bit loop of `decode`: walk the tree, emit a byte and restart from
the root at each leaf; bits that are still mid-walk when the input ends are
dropped (the source simply falls off the loop). -/
def decodeBits (root : HTree) : List Bool → HTree → Option (List Nat)
  | [], _ => some []
  | b :: rest, cur =>
    match step cur b with
    | none => none
    | some (.leaf c) => (decodeBits root rest root).map (fun l => c :: l)
    | some (.node l r) => decodeBits root rest (.node l r)

/-- Translation of `huffman.decode`, walking `_HUFFMAN_TREE` (built at
module import; a failed build would fail the import). -/
def decode (s : List Nat) : Option (List Nat) :=
  match buildHuffmanTree with
  | none => none
  | some root => decodeBits root ((s.map byteBits).flatten) root

/-- Checker used by the proofs: walking `bits` from `cur` stays on inner
nodes and lands exactly on the leaf `c` with the final bit. -/
def codeLands (cur : HTree) : List Bool → Nat → Bool
  | [], _ => false
  | [b], c =>
    (match step cur b with
     | some (.leaf c') => c' == c
     | _ => false)
  | b :: rest, c =>
    (match step cur b with
     | some (.node l r) => codeLands (.node l r) rest c
     | _ => false)

/-- Finite check, evaluated once by the kernel: the tree builds; every
symbol's code walks to its own leaf; up to seven one-bits of padding decode
to nothing; every codebook code fits in its stated bit length. -/
def checkTree : Bool :=
  match buildHuffmanTree with
  | none => false
  | some root =>
    ((List.range 256).all (fun c => codeLands root (symbolBits c) c)) &&
    ((List.range 8).all (fun k => decodeBits root (List.replicate k true) root == some [])) &&
    HUFFMAN_CODEBOOK.all (fun p => decide (p.1 < 2 ^ p.2) && decide (0 < p.2))

end Huffman

/-! ## HPACK decoder (`hpack.py`, `HpackDecoder`) -/

namespace Hpack

/-- The 61-entry `STATIC_TABLE` of the source (including its `except` and
`transfert-encoding` spellings), with name-only tuples as `(name, none)`. -/
def STATIC_TABLE : List Entry := [
  (":authority", none),
  (":method", some "GET"),
  (":method", some "POST"),
  (":path", some "/"),
  (":path", some "/index.html"),
  (":scheme", some "http"),
  (":scheme", some "https"),
  (":status", some "200"),
  (":status", some "204"),
  (":status", some "206"),
  (":status", some "304"),
  (":status", some "400"),
  (":status", some "404"),
  (":status", some "500"),
  ("accept-charset", none),
  ("accept-encoding", some "gzip, deflate"),
  ("accept-language", none),
  ("accept-ranges", none),
  ("accept", none),
  ("access-control-allow-origin", none),
  ("age", none),
  ("allow", none),
  ("authorization", none),
  ("cache-control", none),
  ("content-disposition", none),
  ("content-encoding", none),
  ("content-language", none),
  ("content-length", none),
  ("content-location", none),
  ("content-range", none),
  ("content-type", none),
  ("cookie", none),
  ("date", none),
  ("etag", none),
  ("except", none),
  ("expires", none),
  ("from", none),
  ("host", none),
  ("if-match", none),
  ("if-modified-since", none),
  ("if-none-match", none),
  ("if-range", none),
  ("if-unmodified-since", none),
  ("last-modified", none),
  ("link", none),
  ("location", none),
  ("max-forwards", none),
  ("proxy-authenticate", none),
  ("proxy-authorization", none),
  ("range", none),
  ("referer", none),
  ("refresh", none),
  ("retry-after", none),
  ("server", none),
  ("set-cookie", none),
  ("strict-transport-security", none),
  ("transfert-encoding", none),
  ("user-agent", none),
  ("vary", none),
  ("via", none),
  ("www-authenticate", none)]

/-- Python `bytes.decode("ascii")`: fails on a byte outside the ASCII
range. -/
def asciiDecode (bs : List Nat) : Option String :=
  if bs.all (fun b => b < 128) then some (String.mk (bs.map Char.ofNat))
  else none

/-- Translation of `HpackDecoder._decode_string(iterator)` (reading its own
first byte): the huffman bit, the 7-bit-prefix length, `islice` of `length`
bytes, optional Huffman decoding, ASCII decoding. Returns the string and the
unconsumed bytes; `none` models the raising paths (iterator exhaustion,
unknown Huffman code, non-ASCII byte). -/
def decode_string (l : List Nat) : Option (String × List Nat) :=
  match l with
  | [] => none
  | firstByte :: _ =>
    let isHuffman := firstByte &&& 0x80 ≠ 0
    match decode_int l 7 with
    | none => none
    | some (length, rest) =>
      let strBytes := rest.take length
      let rest' := rest.drop length
      let decoded := if isHuffman then Huffman.decode strBytes else some strBytes
      match decoded with
      | none => none
      | some bs =>
        match asciiDecode bs with
        | none => none
        | some s => some (s, rest')

/-- Translation of `HpackContext.__getitem__`: 1-based index over the static
table followed by the dynamic table; `none` models the assertion failure on
index 0 and the `IndexError` on an out-of-range index. -/
def contextGet (ctx : HpackContext) (index : Nat) : Option Entry :=
  if index = 0 then none
  else
    let i := index - 1
    if i < STATIC_TABLE.length then STATIC_TABLE.get? i
    else ctx.dynamic_table.get? (i - STATIC_TABLE.length)

/-- First component of a header field yielded by `HpackDecoder.decode`: the
untyped source stores either a decoded string or — in the no-indexing branch,
which looks up `self._context[name_index]` without the `[0]` projection the
other branches apply — a whole table entry. -/
inductive HeaderName
  | str (s : String)
  | entry (e : Entry)
deriving DecidableEq

/-- A value yielded by `HpackDecoder.decode`: the indexed-pair branch yields
the table entry itself; the literal branches yield a `(name, value)` pair. -/
inductive Yielded
  | entry (e : Entry)
  | pair (name : HeaderName) (value : String)
deriving DecidableEq

/-- One iteration of the `for byte in iterator` loop of
`HpackDecoder.decode`, given the loop byte and the remaining bytes. Returns
the yielded field (if any), the updated context, and the unconsumed bytes;
`none` models every raising path. The `add` on incremental indexing and the
`max_size` update mirror the context methods above. -/
def decodeStep (ctx : HpackContext) (byte : Nat) (rest : List Nat) :
    Option (Option Yielded × HpackContext × List Nat) :=
  if byte &&& 0x80 ≠ 0 then
    match decode_int (byte :: rest) 7 with
    | none => none
    | some (index, rest') =>
      match contextGet ctx index with
      | none => none
      | some e => some (some (.entry e), ctx, rest')
  else if byte &&& 0x40 ≠ 0 then
    let nameStep : Option (String × List Nat) :=
      if byte &&& 0x3F ≠ 0 then
        match decode_int (byte :: rest) 6 with
        | none => none
        | some (nameIndex, rest') =>
          match contextGet ctx nameIndex with
          | none => none
          | some e => some (e.1, rest')
      else decode_string rest
    match nameStep with
    | none => none
    | some (name, rest') =>
      match decode_string rest' with
      | none => none
      | some (value, rest'') =>
        match ctx.add (name, some value) with
        | none => none
        | some ctx' => some (some (.pair (.str name) value), ctx', rest'')
  else if byte &&& 0x20 ≠ 0 then
    match decode_int (byte :: rest) 5 with
    | none => none
    | some (newSize, rest') =>
      match ctx.set_max_size newSize with
      | .error _ => none
      | .ok ctx' => some (none, ctx', rest')
  else if byte &&& 0x10 ≠ 0 then
    let nameStep : Option (String × List Nat) :=
      if byte &&& 0x0F ≠ 0 then
        match decode_int (byte :: rest) 4 with
        | none => none
        | some (nameIndex, rest') =>
          match contextGet ctx nameIndex with
          | none => none
          | some e => some (e.1, rest')
      else decode_string rest
    match nameStep with
    | none => none
    | some (name, rest') =>
      match decode_string rest' with
      | none => none
      | some (value, rest'') =>
        some (some (.pair (.str name) value), ctx, rest'')
  else
    let nameStep : Option (HeaderName × List Nat) :=
      if byte &&& 0x0F ≠ 0 then
        match decode_int (byte :: rest) 4 with
        | none => none
        | some (nameIndex, rest') =>
          match contextGet ctx nameIndex with
          | none => none
          | some e => some (.entry e, rest')
      else
        match decode_string rest with
        | none => none
        | some (s, rest') => some (.str s, rest')
    match nameStep with
    | none => none
    | some (name, rest') =>
      match decode_string rest' with
      | none => none
      | some (value, rest'') => some (some (.pair name value), ctx, rest'')

/-- The whole `HpackDecoder.decode` generator, driven to completion and
collecting the yielded fields. The fuel starts at `bytes.length + 1`; each
loop iteration consumes at least the loop byte, so the fuel never runs
out. -/
def decodeAll : Nat → HpackContext → List Nat → Option (List Yielded)
  | 0, _, _ => none
  | _ + 1, _, [] => some []
  | fuel + 1, ctx, byte :: rest =>
    match decodeStep ctx byte rest with
    | none => none
    | some (yOpt, ctx', rest') =>
      match decodeAll fuel ctx' rest' with
      | none => none
      | some ys =>
        some (match yOpt with
          | some y => y :: ys
          | none => ys)

/-- `HpackDecoder.decode` on a fresh decoder (default context, as in
`HpackDecoder.__init__`). -/
def decoderDecode (bytes : List Nat) : Option (List Yielded) :=
  decodeAll (bytes.length + 1) ⟨4096, 4096, [], 0⟩ bytes

end Hpack

/-! ## Header line parsing (`headers.py`, `Headers.parse_line` /
`Headers.split_field_content`, and `utils.is_rfc1123_datetime`) -/

namespace Headers

/-- Characters admitted in a header field name by the byte class
`[^\x00-\x20\x7F"(),/:;<=>?@[\]{}]` of `HEADER_FIELD_REGEX` (the two brace
characters are compared numerically). -/
def isTokenChar (c : Char) : Bool :=
  !(c.toNat ≤ 0x20) && !(c.toNat == 0x7F) &&
  !(c == '"' || c == '(' || c == ')' || c == ',' || c == '/' || c == ':' ||
    c == ';' || c == '<' || c == '=' || c == '>' || c == '?' || c == '@' ||
    c == '[' || c == '\\' || c == ']' || c.toNat == 0x7B || c.toNat == 0x7D)

/-- Characters admitted in a header field value by the class `[\t !-~]`. -/
def isValueChar (c : Char) : Bool :=
  c == '\t' || (0x20 ≤ c.toNat && c.toNat ≤ 0x7E)

/-- Python `str.strip` whitespace set. -/
def isPySpace (c : Char) : Bool :=
  c == ' ' || c == '\t' || c == '\n' || c == '\r' ||
  c.toNat == 0x0B || c.toNat == 0x0C

/-- Python `str.strip`. -/
def pyStrip (s : String) : String :=
  String.mk (((s.data.dropWhile isPySpace).reverse.dropWhile isPySpace).reverse)

def isUpperAZ (c : Char) : Bool := 'A' ≤ c && c ≤ 'Z'
def isLowerAZ (c : Char) : Bool := 'a' ≤ c && c ≤ 'z'
def isDigit09 (c : Char) : Bool := '0' ≤ c && c ≤ '9'

/-- Day field `([0-9]{1,2})` followed by a space (greedy with backtracking). -/
def matchDaySpace : List Char → Option (List Char)
  | d1 :: rest =>
    if isDigit09 d1 then
      match rest with
      | d2 :: rest2 =>
        if isDigit09 d2 then
          match rest2 with
          | ' ' :: rest3 => some rest3
          | _ => none
        else if d2 = ' ' then some rest2
        else none
      | [] => none
    else none
  | [] => none

/-- Month field `([A-Z][a-z]{2})` followed by a space. -/
def matchMonthSpace : List Char → Option (List Char)
  | c1 :: c2 :: c3 :: ' ' :: rest =>
    if isUpperAZ c1 && isLowerAZ c2 && isLowerAZ c3 then some rest else none
  | _ => none

/-- Year field `([0-9]{2}|[0-9]{4})` followed by a space (left alternative
first, with backtracking). -/
def matchYearSpace : List Char → Option (List Char)
  | d1 :: d2 :: rest =>
    if isDigit09 d1 && isDigit09 d2 then
      match rest with
      | ' ' :: rest2 => some rest2
      | d3 :: d4 :: ' ' :: rest2 =>
        if isDigit09 d3 && isDigit09 d4 then some rest2 else none
      | _ => none
    else none
  | _ => none

/-- Time-of-day `([0-9]{2}):([0-9]{2}):([0-9]{2})` followed by ` GMT` and
the end of the string. -/
def matchTimeGMTEnd : List Char → Bool
  | h1 :: h2 :: ':' :: m1 :: m2 :: ':' :: s1 :: s2 :: ' ' :: 'G' :: 'M' :: 'T' :: [] =>
    isDigit09 h1 && isDigit09 h2 && isDigit09 m1 && isDigit09 m2 &&
    isDigit09 s1 && isDigit09 s2
  | _ => false

/-- Translation of `utils.is_rfc1123_datetime`, i.e. an anchored match of
`RFC1123_DATETIME_REGEX`. -/
def is_rfc1123_datetime (s : String) : Bool :=
  match s.data with
  | c1 :: c2 :: c3 :: ',' :: ' ' :: rest =>
    if isUpperAZ c1 && isLowerAZ c2 && isLowerAZ c3 then
      match matchDaySpace rest with
      | none => false
      | some rest2 =>
        match matchMonthSpace rest2 with
        | none => false
        | some rest3 =>
          match matchYearSpace rest3 with
          | none => false
          | some rest4 => matchTimeGMTEnd rest4
    else false
  | _ => false

/-- Value part of a parsed header line: Python returns either the raw string
or, after comma splitting, a list of stripped strings. -/
inductive FieldContent
  | single (s : String)
  | multi (l : List String)
deriving DecidableEq

/-- Errors out of `Headers.parse_line`: the regex mismatch raises
`HeaderParseError`; a matching byte line whose groups are not ASCII would
make `bytes.decode("ascii")` raise `UnicodeDecodeError`. -/
inductive ParseError
  | headerParseError
  | unicodeDecodeError
deriving DecidableEq

/-- Python `str.split(",")` on the character list: split at every comma,
keeping empty pieces. -/
def splitOnComma : List Char → List (List Char)
  | [] => [[]]
  | c :: rest =>
    if c = ',' then [] :: splitOnComma rest
    else
      match splitOnComma rest with
      | [] => [[c]]
      | h :: t => (c :: h) :: t

/-- Python `str.lower()` on the ASCII characters the header parser admits. -/
def pyLowerChar (c : Char) : Char :=
  if 'A' ≤ c && c ≤ 'Z' then Char.ofNat (c.toNat + 32) else c

/-- Translation of `Headers.split_field_content`. -/
def split_field_content (s : String) : FieldContent :=
  if s.data.contains ',' && !(is_rfc1123_datetime s) then
    .multi ((splitOnComma s.data).map (fun l => pyStrip (String.mk l)))
  else
    .single s

/-- Translation of `Headers.parse_line` on a byte line (modelled as a string
of characters with code points below 256). The anchored regex
`^(token+):([\t !-~]*)$` is decomposed as: the name group is the maximal
token-character prefix (token characters exclude `:`, so backtracking cannot
produce a different split), the next character must be `:`, and the value
group must reach the end of the line through value characters. -/
def parse_line (line : String) : Except ParseError (String × FieldContent) :=
  let nameChars := line.data.takeWhile isTokenChar
  let rest := line.data.drop nameChars.length
  match rest with
  | ':' :: contentChars =>
    if nameChars.isEmpty || !(contentChars.all isValueChar) then
      .error .headerParseError
    else if !(nameChars.all (fun c => c.toNat < 0x80))
        || !(contentChars.all (fun c => c.toNat < 0x80)) then
      .error .unicodeDecodeError
    else
      let name := String.mk (nameChars.map pyLowerChar)
      let content := split_field_content (String.mk contentChars)
      .ok (name, content)
  | _ => .error .headerParseError

/-- One header line as emitted by `Headers.http_encode`
(`"{0}: {1}\r\n".format(name, value)`), without the terminating CRLF that
`receive_request` strips when splitting the header block. -/
def encodeFieldLine (name value : String) : String :=
  name ++ ": " ++ value

end Headers

/-! ## Server request validation (`server/http1.py`,
`Http1Transport.receive_request`) -/

namespace Server

/-- The content-length value check of `receive_request`, the regex
`^[1-9][0-9]*$` applied by `re.match` (anchored at both ends). Note the
source regex has no alternative for the literal `"0"`. -/
def matchesContentLengthRegex (s : String) : Bool :=
  match s.data with
  | [] => false
  | c :: rest => ('1' ≤ c && c ≤ '9') && rest.all (fun d => '0' ≤ d && d ≤ '9')

/-- Body-length validation step of `receive_request` (the
`transfert-encoding` / `content-length` `if/elif/else`), given the parsed
value lists of the two header fields and the current `keep_alive` flag.
Returns the `HttpError` status code raised (if any) and the resulting
`keep_alive` flag. The `del request.headers["content-length"]` and the
defaulting `request.headers.set("content-length", 0)` only mutate the header
mapping and are not modelled. -/
def bodyLengthValidation (transfertEncoding contentLength : List String)
    (keepAlive : Bool) : Option Nat × Bool :=
  if transfertEncoding ≠ [] then
    if transfertEncoding.getLast? ≠ some "chunked" then (some 400, false)
    else (none, keepAlive)
  else if contentLength ≠ [] then
    if contentLength.length > 1 then (some 400, false)
    else if ¬ matchesContentLengthRegex contentLength.headI then (some 400, false)
    else (none, keepAlive)
  else (none, keepAlive)

/-- Keep-alive derivation at the end of `receive_request`:
`self.keep_alive = (version == "1.1" and "close" not in connection
or version == "1.0" and "keep_alive" in connection)`. Note the source
tests for the string `"keep_alive"` (with an underscore). -/
def keepAliveAfterReceive (version : String) (connection : List String) : Bool :=
  (version == "1.1" && !(connection.contains "close"))
    || (version == "1.0" && connection.contains "keep_alive")

/-- The keep-alive rule as stated by the specification (for comparison):
HTTP/1.1 keep-alive unless `close` present, HTTP/1.0 keep-alive only when
`keep-alive` (hyphenated, the RFC 7230 wire token) is present. -/
def keepAliveSpecRule (version : String) (connection : List String) : Bool :=
  (version == "1.1" && !(connection.contains "close"))
    || (version == "1.0" && connection.contains "keep-alive")

end Server

/-! ## Client connection fetch (`client/http1.py`, `Http1Connection.fetch`) -/

namespace Client

/-- Outcome of the inner `self._fetch(request)` call (possibly wrapped in
`asyncio.wait_for`): it returns a response, or raises `ConnectionError`,
`asyncio.TimeoutError`, or some other exception. -/
inductive FetchOutcome
  | success
  | connectionError
  | timeoutError
  | otherException
deriving DecidableEq

/-- What `fetch` itself produces: a returned response, a propagated
exception from the body, or the `AssertionError` of a failed entry
assertion. -/
inductive FetchResult
  | response
  | clientConnectionError
  | clientTimeoutError
  | otherException
  | assertionError
deriving DecidableEq

/-- Client connection state observable by `fetch`: the semaphore linked by
`lock` (modelled as a permit counter, `none` when `lock` was given `None`),
the `_is_locked` flag, and whether the writer is closing. -/
structure ClientConn where
  semaphore : Option Nat
  is_locked : Bool
  is_closing : Bool
deriving DecidableEq

/-- Translation of `Http1Connection.fetch`. The two entry assertions
`assert not self._writer.is_closing()` and `assert self._is_locked` precede
the `try`, so a failure there raises `AssertionError` with the connection
state untouched — the `finally` clause is never entered. Past the
assertions, the `except ConnectionError` / `except asyncio.TimeoutError`
arms close the connection and re-raise as `ClientConnectionError` /
`ClientTimeoutError`, and the `finally` clause releases the semaphore (when
one is linked) and clears `_is_locked` on every path, including when the
except arms themselves raise. -/
def fetch (conn : ClientConn) (outcome : FetchOutcome) :
    FetchResult × ClientConn :=
  if conn.is_closing then (.assertionError, conn)
  else if !conn.is_locked then (.assertionError, conn)
  else
    let step : FetchResult × ClientConn :=
      match outcome with
      | .success => (.response, conn)
      | .connectionError =>
        (.clientConnectionError, { conn with is_closing := true })
      | .timeoutError =>
        (.clientTimeoutError, { conn with is_closing := true })
      | .otherException => (.otherException, conn)
    let conn1 := step.2
    let conn2 :=
      match conn1.semaphore with
      | some k => { conn1 with semaphore := some (k + 1) }
      | none => conn1
    (step.1, { conn2 with is_locked := false })

end Client

/-! ## Buffered body reader (`streamutils.py`, `BufferedBodyReader`) -/

namespace Stream

/-- Result of one `__anext__` call. The `eofError` constructor exists so the
specification's expectation (`EOFError`) is expressible; the translation of
the source never produces it, because the source method contains no
`raise EOFError`. -/
inductive AnextResult
  | block (b : List Nat)
  | stopAsyncIteration
  | eofError
deriving DecidableEq

/-- State of a `BufferedBodyReader` whose `body_size` is given (the
`content-length` path). The transport reader is the list of bytes still
buffered ahead; `read(n)` takes from its front and returns fewer bytes only
at end of stream, exactly the transport contract. -/
structure BufferedBodyReader where
  stream : List Nat
  body_size : Nat
  block_size : Nat
  block_count : Nat
  last_block_size : Nat
  current_block : Nat
  eof : Bool
  bytes_read : Nat
deriving DecidableEq

/-- Translation of `BufferedBodyReader.__init__` with a non-`None`
`body_size`: `block_count, last_block_size = divmod(body_size, block_size)`. -/
def BufferedBodyReader.init (stream : List Nat) (bodySize blockSize : Nat) :
    BufferedBodyReader where
  stream := stream
  body_size := bodySize
  block_size := blockSize
  block_count := bodySize / blockSize
  last_block_size := bodySize % blockSize
  current_block := 0
  eof := false
  bytes_read := 0

/-- Translation of the `is_complete` property:
`self.bytes_read == self._body_size`. -/
def BufferedBodyReader.is_complete (r : BufferedBodyReader) : Bool :=
  r.bytes_read == r.body_size

/-- The `block_size` local variable computed at the top of `__anext__`. -/
def BufferedBodyReader.nextBlockSize (r : BufferedBodyReader) : Nat :=
  if r.current_block < r.block_count then r.block_size
  else if r.current_block == r.block_count then r.last_block_size
  else 0

/-- Translation of `BufferedBodyReader.__anext__` (with `body_size` set).
`raise StopAsyncIteration` becomes the `stopAsyncIteration` result. -/
def BufferedBodyReader.anext (r : BufferedBodyReader) :
    AnextResult × BufferedBodyReader :=
  let blockSize := r.nextBlockSize
  if blockSize == 0 then
    (.stopAsyncIteration, { r with eof := true })
  else
    let block := r.stream.take blockSize
    let r' := { r with stream := r.stream.drop blockSize }
    if block == [] then
      (.stopAsyncIteration, { r' with eof := true })
    else
      (.block block,
        { r' with bytes_read := r.bytes_read + block.length,
                  current_block := r.current_block + 1 })

/-- Driving the asynchronous iterator to termination (the `async for` /
`read_into` loop): call `__anext__` repeatedly, collecting the yielded blocks,
until a non-block result ends the iteration. Returns the blocks, the
terminating result, and the final reader state. -/
def iterate (r : BufferedBodyReader) :
    List (List Nat) × AnextResult × BufferedBodyReader :=
  match h : r.anext with
  | (.stopAsyncIteration, r') => ([], .stopAsyncIteration, r')
  | (.eofError, r') => ([], .eofError, r')
  | (.block b, r') =>
    let tail := iterate r'
    (b :: tail.1, tail.2)
  termination_by r.block_count + 1 - r.current_block
  decreasing_by
    unfold BufferedBodyReader.anext at h
    dsimp only at h
    split at h
    · simp at h
    · rename_i hn
      split at h
      · simp at h
      · simp only [Prod.mk.injEq, AnextResult.block.injEq] at h
        rw [← h.2]
        simp only
        unfold BufferedBodyReader.nextBlockSize at hn
        have hle : r.current_block ≤ r.block_count := by
          by_contra hc
          rw [if_neg (by omega), if_neg (by simp; omega)] at hn
          exact hn rfl
        omega

/-- Consistency of the reader state with its construction: the cached
`divmod` results match, the block size is positive, and either every read so
far returned a full block or the transport has already hit end of stream. -/
def StateInv (r : BufferedBodyReader) : Prop :=
  r.block_count = r.body_size / r.block_size ∧
  r.last_block_size = r.body_size % r.block_size ∧
  0 < r.block_size ∧
  (r.bytes_read = r.current_block * r.block_size ∨ r.stream = [])

/-- The transport will signal end of stream before `body_size` bytes can be
produced. -/
def PrematureEOF (r : BufferedBodyReader) : Prop :=
  r.stream.length + r.bytes_read < r.body_size

end Stream

/-! ## Helper lemmas -/

namespace Hpack

lemma and127_of_lt (v : Nat) (h : v < 128) : v &&& 127 = v := by
  have := Nat.and_pow_two_sub_one_eq_mod v 7
  norm_num at this
  omega

lemma and128_of_lt (v : Nat) (h : v < 128) : v &&& 128 = 0 := by
  have h2 : (128 : Nat) = 2 ^ 7 := by norm_num
  rw [h2, Nat.and_two_pow]
  have : v.testBit 7 = false := Nat.testBit_lt_two_pow (by omega)
  simp [this]

lemma or128_and127 (v : Nat) (h : v < 128) : (v ||| 128) &&& 127 = v := by
  rw [Nat.and_distrib_right, and127_of_lt v h]
  rw [show (128 : Nat) &&& 127 = 0 from rfl, Nat.or_zero]

lemma or128_and128 (v : Nat) : (v ||| 128) &&& 128 ≠ 0 := by
  intro hh
  have h7 := congrArg (fun x => Nat.testBit x 7) hh
  simp only [Nat.testBit_and, Nat.testBit_or] at h7
  rw [show Nat.testBit 128 7 = true from rfl] at h7
  simp at h7

/-- Decoding the continuation bytes emitted by `encodeIntLoop` recovers the
encoded value, shifted into place and added to the accumulator. -/
lemma decodeIntLoop_encodeIntLoop (v : Nat) :
    ∀ rest chunkShift acc,
      decodeIntLoop (encodeIntLoop v ++ rest) chunkShift acc
        = some (acc + v * 2 ^ chunkShift, rest) := by
  induction v using Nat.strong_induction_on with
  | _ v ih =>
    intro rest chunkShift acc
    rw [encodeIntLoop]
    by_cases h : v ≥ 128
    · rw [dif_pos h]
      simp only [List.cons_append, decodeIntLoop, List.append_eq]
      rw [if_pos (or128_and128 _)]
      rw [ih (v / 128) (Nat.div_lt_self (by omega) (by omega))]
      simp only [Option.some.injEq, Prod.mk.injEq, and_true]
      have hmod : v % 128 < 128 := Nat.mod_lt _ (by omega)
      rw [or128_and127 _ hmod, Nat.shiftLeft_eq, pow_add]
      conv_rhs => rw [← Nat.mod_add_div v 128]
      ring
    · rw [dif_neg h]
      simp only [List.cons_append, List.nil_append, decodeIntLoop, List.append_eq]
      rw [if_neg (by simp [and128_of_lt v (by omega)])]
      rw [and127_of_lt v (by omega), Nat.shiftLeft_eq]

/-- Running the eviction loop on a table whose cached size is the sum of its
entry sizes always succeeds and restores `size ≤ maxSize`. -/
lemma evictLoop_sound (maxSize : Nat) :
    ∀ revTable : List Entry,
      ∃ out, evictLoop maxSize revTable ((revTable.map entrySize).sum) = some out ∧
        out.2 = (out.1.map entrySize).sum ∧ out.2 ≤ maxSize := by
  intro revTable
  induction revTable with
  | nil =>
    refine ⟨([], 0), ?_, by simp, by simp⟩
    simp [evictLoop]
  | cons e rest ih =>
    by_cases h : (((e :: rest).map entrySize).sum) ≤ maxSize
    · exact ⟨(e :: rest, ((e :: rest).map entrySize).sum),
        by rw [evictLoop, if_pos h], rfl, h⟩
    · obtain ⟨out, hout, hacc, hle⟩ := ih
      refine ⟨out, ?_, hacc, hle⟩
      rw [evictLoop, if_neg h]
      simp only [List.map_cons, List.sum_cons]
      rw [show entrySize e + (rest.map entrySize).sum - entrySize e
            = (rest.map entrySize).sum by omega]
      exact hout

/-- When the newest entry alone exceeds `maxSize`, the eviction loop drops
every entry (the newest one last) and ends with an empty table of size 0. -/
lemma evictLoop_drain (maxSize : Nat) (hf : Entry) (hbig : entrySize hf > maxSize) :
    ∀ xs : List Entry,
      evictLoop maxSize (xs ++ [hf]) ((xs.map entrySize).sum + entrySize hf)
        = some ([], 0) := by
  intro xs
  induction xs with
  | nil =>
    simp only [List.nil_append, List.map_nil, List.sum_nil, Nat.zero_add]
    rw [evictLoop, if_neg (by omega)]
    rw [Nat.sub_self]
    rw [evictLoop, if_pos (Nat.zero_le _)]
  | cons e rest ih =>
    simp only [List.cons_append, List.map_cons, List.sum_cons]
    rw [evictLoop, if_neg (by omega)]
    rw [show entrySize e + (rest.map entrySize).sum + entrySize hf - entrySize e
          = (rest.map entrySize).sum + entrySize hf by omega]
    exact ih

end Hpack

namespace Stream

/-- Characterization of an `__anext__` call that yields a block. -/
lemma anext_block_spec (r r' : BufferedBodyReader) (b : List Nat)
    (h : r.anext = (.block b, r')) :
    r.nextBlockSize ≠ 0 ∧ b = r.stream.take r.nextBlockSize ∧ b ≠ [] ∧
      r' = { r with stream := r.stream.drop r.nextBlockSize,
                    bytes_read := r.bytes_read + b.length,
                    current_block := r.current_block + 1 } := by
  unfold BufferedBodyReader.anext at h
  dsimp only at h
  split at h
  · simp at h
  · rename_i hn
    split at h
    · simp at h
    · rename_i hb
      simp only [Prod.mk.injEq, AnextResult.block.injEq] at h
      obtain ⟨hb', hr'⟩ := h
      subst hb'
      exact ⟨by simpa using hn, rfl, by simpa using hb, hr'.symm⟩

/-- An `__anext__` call that stops the iteration leaves `bytes_read` and
`body_size` unchanged. -/
lemma anext_stop_spec (r r' : BufferedBodyReader)
    (h : r.anext = (.stopAsyncIteration, r')) :
    r'.bytes_read = r.bytes_read ∧ r'.body_size = r.body_size := by
  unfold BufferedBodyReader.anext at h
  dsimp only at h
  split at h
  · simp only [Prod.mk.injEq] at h
    rw [← h.2]
    exact ⟨rfl, rfl⟩
  · split at h
    · simp only [Prod.mk.injEq] at h
      rw [← h.2]
      exact ⟨rfl, rfl⟩
    · simp at h

/-- The translation of `__anext__` never produces `eofError`: the source
method contains no `raise EOFError`. -/
lemma anext_no_eof (r r' : BufferedBodyReader)
    (h : r.anext = (.eofError, r')) : False := by
  unfold BufferedBodyReader.anext at h
  dsimp only at h
  split at h
  · simp at h
  · split at h <;> simp at h

/-- Main loop invariant argument: when the transport hits end of stream
before `body_size` bytes are available, the iteration ends with
`StopAsyncIteration` (not `EOFError`) and fewer than `body_size` bytes
read. -/
lemma iterate_premature (r : BufferedBodyReader)
    (hinv : StateInv r) (hpre : PrematureEOF r) :
    (iterate r).2.1 = .stopAsyncIteration ∧
      (iterate r).2.2.bytes_read < r.body_size ∧
      (iterate r).2.2.body_size = r.body_size := by
  induction r using iterate.induct with
  | case1 r r' h =>
    rw [iterate]
    split
    · rename_i r'' heq
      obtain ⟨hb, hbody⟩ := anext_stop_spec r r'' heq
      have hlt : r.bytes_read < r.body_size := by
        have := hpre
        unfold PrematureEOF at this
        omega
      exact ⟨rfl, by simp only; omega, by simp only [hbody]⟩
    · rename_i r'' heq
      rw [h] at heq
      cases heq
    · rename_i b r'' heq
      rw [h] at heq
      cases heq
  | case2 r r' h => exact absurd h (fun hh => anext_no_eof r r' hh)
  | case3 r b r' h ih =>
    obtain ⟨hn, hbdef, hbne, hr'def⟩ := anext_block_spec r r' b h
    have hblen : b.length = min r.nextBlockSize r.stream.length := by
      rw [hbdef, List.length_take]
    have hcases : (r.current_block < r.block_count ∧ r.nextBlockSize = r.block_size)
        ∨ (r.current_block = r.block_count ∧ r.nextBlockSize = r.last_block_size) := by
      unfold BufferedBodyReader.nextBlockSize at hn ⊢
      by_cases h1 : r.current_block < r.block_count
      · exact Or.inl ⟨h1, if_pos h1⟩
      · by_cases h2 : r.current_block = r.block_count
        · exact Or.inr ⟨h2, by rw [if_neg h1, if_pos (by simp [h2])]⟩
        · exfalso
          rw [if_neg h1, if_neg (by simp [h2])] at hn
          exact hn rfl
    have hinv' : StateInv r' := by
      subst hr'def
      obtain ⟨h1, h2, h3, h4⟩ := hinv
      refine ⟨h1, h2, h3, ?_⟩
      simp only
      rcases h4 with h4 | h4
      · by_cases hlen : r.nextBlockSize ≤ r.stream.length
        · rcases hcases with ⟨hcur, hval⟩ | ⟨hcur, hval⟩
          · left
            rw [hval] at hblen hlen
            rw [hblen, Nat.succ_mul]
            omega
          · exfalso
            have hdm := Nat.div_add_mod r.body_size r.block_size
            have hcb : r.block_count * r.block_size
                = r.block_size * (r.body_size / r.block_size) := by
              rw [h1, Nat.mul_comm]
            rw [hcur, hcb] at h4
            rw [hval, h2] at hlen
            unfold PrematureEOF at hpre
            omega
        · right
          exact List.drop_eq_nil_of_le (by omega)
      · exfalso
        rw [h4] at hbdef
        simp at hbdef
        exact hbne hbdef
    have hpre' : PrematureEOF r' := by
      subst hr'def
      unfold PrematureEOF at hpre ⊢
      simp only [List.length_drop]
      omega
    have hbody' : r'.body_size = r.body_size := by
      subst hr'def
      rfl
    obtain ⟨c1, c2, c3⟩ := ih hinv' hpre'
    rw [iterate]
    split
    · rename_i r'' heq
      rw [h] at heq
      cases heq
    · rename_i r'' heq
      rw [h] at heq
      cases heq
    · rename_i b'' r'' heq
      rw [h] at heq
      injection heq with heq1 heq2
      injection heq1 with heq1
      subst heq1
      subst heq2
      exact ⟨c1, by rw [hbody'] at c2; exact c2, by rw [hbody'] at c3; exact c3⟩

end Stream

/-! ## Claim theorems -/

open Hpack Headers Server Client Stream Huffman

/-- C3: for every `N < 2^31`, prefix length `P ∈ {1,...,7}` and bit pattern
`B` compatible with the prefix (its low `P` bits clear, as a pattern must be
for `value | bit_pattern` to be recoverable), decoding the bytes produced by
`HpackEncoder._encode_int(N, P, B)` with `HpackDecoder._decode_int` at prefix
length `P` yields `N` back, consuming the whole sequence. -/
theorem hpack_integer_roundtrip (N P B : Nat) (hN : N < 2 ^ 31)
    (hP1 : 0 < P) (hP2 : P < 8) (hB : B < 0x100)
    (hcompat : B &&& ((1 <<< P) - 1) = 0) :
    decode_int (encode_int N P B) P = some (N, []) := by
  have hmask : (1 <<< P) - 1 = 2 ^ P - 1 := by rw [Nat.one_shiftLeft]
  have hmaskpos : 0 < 2 ^ P - 1 := by
    have : (2 : Nat) ^ 1 ≤ 2 ^ P := Nat.pow_le_pow_right (by omega) hP1
    omega
  unfold encode_int decode_int
  rw [hmask] at hcompat ⊢
  by_cases h : N < 2 ^ P - 1
  · rw [if_pos h]
    simp only
    have hN2 : N < 2 ^ P := by omega
    have : (N ||| B) &&& (2 ^ P - 1) = N := by
      rw [Nat.and_distrib_right, hcompat, Nat.or_zero,
        Nat.and_pow_two_sub_one_eq_mod, Nat.mod_eq_of_lt hN2]
    rw [this, if_pos h]
  · rw [if_neg h]
    simp only
    have hself : (2 ^ P - 1) &&& (2 ^ P - 1) = 2 ^ P - 1 := Nat.and_self _
    have : ((2 ^ P - 1) ||| B) &&& (2 ^ P - 1) = 2 ^ P - 1 := by
      rw [Nat.and_distrib_right, hcompat, Nat.or_zero, hself]
    rw [this, if_neg (lt_irrefl _),
      ← List.append_nil (encodeIntLoop (N - (2 ^ P - 1))),
      decodeIntLoop_encodeIntLoop]
    simp only [pow_zero, Nat.mul_one, Option.some.injEq, Prod.mk.injEq, and_true]
    omega

/-- C3 witness: the round trip at `N = 1234567`, `P = 5`, `B = 0x40`. -/
theorem hpack_integer_roundtrip_witness :
    decode_int (encode_int 1234567 5 0x40) 5 = some (1234567, []) :=
  hpack_integer_roundtrip 1234567 5 0x40 (by norm_num) (by norm_num)
    (by norm_num) (by norm_num) (by decide)

/-- C6: every `HpackContext` operation (`add`, `set_max_size`, `set_limit`)
preserves `current_size ≤ max_size ≤ limit` (together with the size
accounting `_size = Σ entry sizes` that makes the cached size meaningful),
on every non-raising execution. -/
theorem hpack_context_invariant (ctx : HpackContext) (hf : Entry) (v : Nat)
    (hacc : ctx.Accounted) (hinv : ctx.SizeInv) :
    (∀ ctx', ctx.add hf = some ctx' → ctx'.Accounted ∧ ctx'.SizeInv)
    ∧ (∀ ctx', ctx.set_max_size v = .ok ctx' → ctx'.Accounted ∧ ctx'.SizeInv)
    ∧ (∀ ctx', ctx.set_limit v = .ok ctx' → ctx'.Accounted ∧ ctx'.SizeInv)  := by
  have hrevsum : ∀ l : List Entry, ((l.reverse.map entrySize)).sum
      = (l.map entrySize).sum := by
    intro l
    rw [List.map_reverse, List.sum_reverse]
  refine ⟨?_, ?_, ?_⟩
  · intro ctx' h
    unfold HpackContext.add at h
    dsimp only at h
    obtain ⟨out, hout, haccout, hle⟩ :=
      evictLoop_sound ctx.max_size ((hf :: ctx.dynamic_table).reverse)
    rw [hrevsum] at hout
    simp only [List.map_cons, List.sum_cons] at hout
    rw [show ctx.size + entrySize hf
          = entrySize hf + (ctx.dynamic_table.map entrySize).sum by
        rw [hacc]; omega] at h
    rw [hout] at h
    simp only [Option.some.injEq] at h
    subst h
    refine ⟨?_, ?_, ?_⟩
    · show out.2 = ((out.1.reverse.map entrySize)).sum
      rw [hrevsum]; exact haccout
    · exact hle
    · exact hinv.2
  · intro ctx' h
    unfold HpackContext.set_max_size at h
    by_cases hv : v > ctx.limit
    · rw [if_pos hv] at h; cases h
    · rw [if_neg hv] at h
      obtain ⟨out, hout, haccout, hle⟩ :=
        evictLoop_sound v (ctx.dynamic_table.reverse)
      rw [hrevsum, ← hacc] at hout
      rw [hout] at h
      simp only [Except.ok.injEq] at h
      subst h
      refine ⟨?_, hle, ?_⟩
      · show out.2 = ((out.1.reverse.map entrySize)).sum
        rw [hrevsum]; exact haccout
      · exact (by omega : v ≤ ctx.limit)
  · intro ctx' h
    unfold HpackContext.set_limit at h
    dsimp only at h
    by_cases hv : ctx.max_size > v
    · rw [if_pos hv] at h
      unfold HpackContext.set_max_size at h
      rw [if_neg (by simp)] at h
      obtain ⟨out, hout, haccout, hle⟩ :=
        evictLoop_sound v (ctx.dynamic_table.reverse)
      rw [hrevsum, ← hacc] at hout
      simp only at h
      rw [hout] at h
      simp only [Except.ok.injEq] at h
      subst h
      refine ⟨?_, hle, le_refl _⟩
      show out.2 = ((out.1.reverse.map entrySize)).sum
      rw [hrevsum]; exact haccout
    · rw [if_neg hv] at h
      simp only [Except.ok.injEq] at h
      subst h
      exact ⟨hacc, hinv.1, (by omega : ctx.max_size ≤ v)⟩


/-- C6 witness: the default context (limit 4096) with the entry
`(":authority", "www.example.com")` and new size 100. -/
theorem hpack_context_invariant_witness :
    (∀ ctx', HpackContext.add ⟨4096, 4096, [], 0⟩
        (":authority", some "www.example.com") = some ctx'
      → ctx'.Accounted ∧ ctx'.SizeInv)
    ∧ (∀ ctx', HpackContext.set_max_size ⟨4096, 4096, [], 0⟩ 100 = .ok ctx'
      → ctx'.Accounted ∧ ctx'.SizeInv)
    ∧ (∀ ctx', HpackContext.set_limit ⟨4096, 4096, [], 0⟩ 100 = .ok ctx'
      → ctx'.Accounted ∧ ctx'.SizeInv) :=
  hpack_context_invariant ⟨4096, 4096, [], 0⟩
    (":authority", some "www.example.com") 100 rfl ⟨by decide, by decide⟩

/-- C10: adding an entry whose size `32 + len(name) + len(value)` exceeds
`max_size` empties the dynamic table, resets the size accounting to 0, and
raises no exception. -/
theorem hpack_add_oversized_entry_clears_table
    (ctx : HpackContext) (hf : Entry)
    (hacc : ctx.Accounted) (hinv : ctx.SizeInv)
    (hbig : entrySize hf > ctx.max_size) :
    ctx.add hf = some { ctx with dynamic_table := [], size := 0 } := by
  unfold HpackContext.add
  dsimp only
  rw [List.reverse_cons]
  rw [show ctx.size + entrySize hf
        = ((ctx.dynamic_table.reverse.map entrySize)).sum + entrySize hf by
      rw [List.map_reverse, List.sum_reverse, ← hacc]]
  rw [evictLoop_drain ctx.max_size hf hbig ctx.dynamic_table.reverse]
  rfl

/-- C10 witness: a 72-byte entry against `max_size = 60`. -/
theorem hpack_add_oversized_entry_clears_table_witness :
    HpackContext.add ⟨100, 60, [], 0⟩
        ("aaaaaaaaaaaaaaaaaaaaaaaaaaaaaa", some "bbbbbbbbbb")
      = some ⟨100, 60, [], 0⟩ :=
  hpack_add_oversized_entry_clears_table ⟨100, 60, [], 0⟩
    ("aaaaaaaaaaaaaaaaaaaaaaaaaaaaaa", some "bbbbbbbbbb")
    rfl ⟨by decide, by decide⟩ (by decide)

/-- C9 counterexample to the claim as stated: on a locked connection whose
writer is already closing, the entry assertion
`assert not self._writer.is_closing()` fails before the `try` is entered, so
`fetch` raises `AssertionError` on that exit path with the semaphore not
released and `_is_locked` still set — the claim asserts release and clear on
every exit path of a locked connection. -/
theorem client_fetch_closing_writer_asserts :
    Client.fetch ⟨some 0, true, true⟩ .success
        = (.assertionError, ⟨some 0, true, true⟩)
    ∧ (Client.fetch ⟨some 0, true, true⟩ .success).2.is_locked = true
    ∧ (Client.fetch ⟨some 0, true, true⟩ .success).2.semaphore = some 0 :=
  ⟨rfl, rfl, rfl⟩

/-- C9 (amended): on a locked client connection whose writer is not closing
(so both entry assertions pass), every exit path of
`Http1Connection.fetch` — returned response, `ClientConnectionError`,
`ClientTimeoutError`, or any other exception from the body — releases the
semaphore passed to `lock` and clears the `_is_locked` flag; when the writer
is already closing, the call raises `AssertionError` with the semaphore
unreleased and the flag still set. -/
theorem client_fetch_releases_semaphore (conn : ClientConn)
    (outcome : FetchOutcome) (hlocked : conn.is_locked = true)
    (hopen : conn.is_closing = false) :
    (Client.fetch conn outcome).2.is_locked = false
    ∧ (∀ k, conn.semaphore = some k
        → (Client.fetch conn outcome).2.semaphore = some (k + 1)) := by
  obtain ⟨sem, l, cl⟩ := conn
  simp only at hlocked hopen
  subst hlocked
  subst hopen
  cases sem <;> cases outcome <;> simp [Client.fetch]

/-- C9 witness: a locked, non-closing connection holding a semaphore with 0
permits, on the success path. -/
theorem client_fetch_releases_semaphore_witness :
    (Client.fetch ⟨some 0, true, false⟩ .success).2.is_locked = false
    ∧ (∀ k, (some 0 : Option Nat) = some k
        → (Client.fetch ⟨some 0, true, false⟩ .success).2.semaphore
            = some (k + 1)) :=
  client_fetch_releases_semaphore ⟨some 0, true, false⟩ .success rfl rfl

/-- C8 (amended): for every non-negative `body_size`, positive block size and
transport stream shorter than `body_size` (end of stream before `body_size`
bytes), iterating `BufferedBodyReader` terminates normally via
`StopAsyncIteration` — it does not raise `EOFError` — and `is_complete` is
false at the end. -/
theorem buffered_body_reader_premature_eof_stops_normally
    (stream : List Nat) (bodySize blockSize : Nat)
    (hbs : 0 < blockSize) (hshort : stream.length < bodySize) :
    (Stream.iterate (BufferedBodyReader.init stream bodySize blockSize)).2.1
        = AnextResult.stopAsyncIteration
    ∧ (Stream.iterate (BufferedBodyReader.init stream bodySize blockSize)).2.1
        ≠ AnextResult.eofError
    ∧ (Stream.iterate (BufferedBodyReader.init stream bodySize blockSize)).2.2.is_complete
        = false := by
  have hinv : StateInv (BufferedBodyReader.init stream bodySize blockSize) :=
    ⟨rfl, rfl, hbs, Or.inl (by simp [BufferedBodyReader.init])⟩
  have hpre : PrematureEOF (BufferedBodyReader.init stream bodySize blockSize) := by
    unfold PrematureEOF
    simpa [BufferedBodyReader.init] using hshort
  obtain ⟨c1, c2, c3⟩ := iterate_premature _ hinv hpre
  refine ⟨c1, ?_, ?_⟩
  · rw [c1]
    intro hc
    cases hc
  have c2' : (Stream.iterate (BufferedBodyReader.init stream bodySize blockSize)).2.2.bytes_read
      < bodySize := c2
  have c3' : (Stream.iterate (BufferedBodyReader.init stream bodySize blockSize)).2.2.body_size
      = bodySize := c3
  unfold BufferedBodyReader.is_complete
  rw [c3']
  simp only [beq_eq_false_iff_ne, ne_eq]
  omega

/-- C8 witness: an immediately-empty transport against `body_size = 5`. -/
theorem buffered_body_reader_premature_eof_stops_normally_witness :
    (Stream.iterate (BufferedBodyReader.init [] 5 65536)).2.1
        = AnextResult.stopAsyncIteration
    ∧ (Stream.iterate (BufferedBodyReader.init [] 5 65536)).2.1
        ≠ AnextResult.eofError
    ∧ (Stream.iterate (BufferedBodyReader.init [] 5 65536)).2.2.is_complete
        = false :=
  buffered_body_reader_premature_eof_stops_normally [] 5 65536
    (by norm_num) (by simp)

/-- C8 counterexample to the claim as stated: with `body_size = 5` and a
transport that signals end of stream immediately, the iteration terminates
normally through `StopAsyncIteration` — not by raising `EOFError` as the
claim asserts — leaving `is_complete` false. -/
theorem buffered_body_reader_eoferror_counterexample :
    (Stream.iterate (BufferedBodyReader.init [] 5 65536)).2.1
        = AnextResult.stopAsyncIteration
    ∧ (Stream.iterate (BufferedBodyReader.init [] 5 65536)).2.1
        ≠ AnextResult.eofError := by
  have hinv : StateInv (BufferedBodyReader.init [] 5 65536) := by
    refine ⟨rfl, rfl, by decide, Or.inl (by simp [BufferedBodyReader.init])⟩
  have hpre : PrematureEOF (BufferedBodyReader.init [] 5 65536) := by
    unfold PrematureEOF
    simp [BufferedBodyReader.init]
  obtain ⟨c1, _, _⟩ := iterate_premature _ hinv hpre
  exact ⟨c1, by rw [c1]; intro hc; cases hc⟩

/-- C1: the body-length validation of `receive_request` rejects a request
whose only `content-length` value is the literal `"0"` with `HttpError(400)`
and forces `keep_alive` off, because the source regex `^[1-9][0-9]*$` has no
alternative for `0`; the claim (and the specification, including its
scenario `GET / HTTP/1.1` + `Content-Length: 0` → 200) says such a request
is accepted. -/
theorem content_length_zero_rejected_with_400 :
    bodyLengthValidation [] ["0"] true = (some 400, false)
    ∧ matchesContentLengthRegex "0" = false := by
  exact ⟨rfl, rfl⟩

/-- C2: the keep-alive derivation of `receive_request` tests the connection
values for the string `"keep_alive"` (underscore), so for an HTTP/1.0
request whose connection header contains the RFC 7230 token `"keep-alive"`
the source computes `keep_alive = false`, while the claimed rule (and the
specification) give `true`. -/
theorem keep_alive_underscore_divergence :
    keepAliveAfterReceive "1.0" ["keep-alive"] = false
    ∧ keepAliveSpecRule "1.0" ["keep-alive"] = true := by
  exact ⟨rfl, rfl⟩

namespace Headers

lemma takeWhile_append_cons (p : Char → Bool) (l1 : List Char) (c : Char)
    (l2 : List Char) (h1 : ∀ x ∈ l1, p x = true) (hc : p c = false) :
    (l1 ++ c :: l2).takeWhile p = l1 := by
  induction l1 with
  | nil => simp [List.takeWhile, hc]
  | cons x xs ih =>
    simp only [List.cons_append, List.takeWhile]
    rw [h1 x (by simp)]
    simp only [List.cons.injEq, true_and]
    exact ih (fun y hy => h1 y (by simp [hy]))

end Headers

/-- C7 counterexample to the claim as stated: the validated field
`("A", "x")` encodes to the line `A: x`, and `parse_line` returns
`("a", " x")` — the leading space after the colon is kept, not trimmed, so
the parsed field is not structurally equal to `("a", "x")`. -/
theorem headers_parse_line_not_trimmed :
    Headers.parse_line (Headers.encodeFieldLine "A" "x")
        = .ok ("a", .single " x")
    ∧ Headers.FieldContent.single " x" ≠ Headers.FieldContent.single "x" :=
  ⟨rfl, by decide⟩

/-- C7 (amended): for every header field `(name, value)` passing validation
(`name` one or more ASCII token octets, `value` printable ASCII) whose value
contains no comma, `parse_line` applied to the encoded line `name: value`
returns the lowercased name together with the single value `" " ++ value` —
the leading space introduced by the `"{0}: {1}"` encoding is preserved;
whitespace is trimmed only on the comma-splitting path of
`split_field_content`. -/
theorem headers_parse_line_round_trip (name value : String)
    (hname1 : name.data ≠ [])
    (hname2 : ∀ c ∈ name.data, Headers.isTokenChar c = true ∧ c.toNat < 0x80)
    (hvalue : ∀ c ∈ value.data, 0x20 ≤ c.toNat ∧ c.toNat ≤ 0x7E)
    (hnocomma : ',' ∉ value.data) :
    Headers.parse_line (Headers.encodeFieldLine name value)
      = .ok (String.mk (name.data.map Headers.pyLowerChar),
             .single (" " ++ value)) := by
  obtain ⟨v⟩ := value
  obtain ⟨n⟩ := name
  simp only [String.data] at hname1 hname2 hvalue hnocomma
  have hline : (encodeFieldLine ⟨n⟩ ⟨v⟩).data = n ++ ':' :: ' ' :: v := by
    show (⟨n⟩ ++ ": " ++ ⟨v⟩ : String).data = n ++ ':' :: ' ' :: v
    simp [String.data_append]
  unfold parse_line
  rw [hline]
  rw [takeWhile_append_cons isTokenChar n ':' (' ' :: v)
    (fun x hx => (hname2 x hx).1) rfl]
  dsimp only
  rw [List.drop_left]
  have hcond1 : (n.isEmpty || !((' ' :: v).all isValueChar)) = false := by
    have h1 : n.isEmpty = false := by
      cases n with
      | nil => exact absurd rfl hname1
      | cons _ _ => rfl
    have h2 : (' ' :: v).all isValueChar = true := by
      simp only [List.all_cons, Bool.and_eq_true]
      refine ⟨rfl, ?_⟩
      rw [List.all_eq_true]
      intro c hc
      have hcv := hvalue c hc
      unfold isValueChar
      simp only [Bool.or_eq_true, Bool.and_eq_true, decide_eq_true_eq]
      right
      omega
    rw [h1, h2]
    rfl
  have hcond2 : ((!n.all fun c => decide (c.toNat < 128))
      || !((' ' :: v).all fun c => decide (c.toNat < 128))) = false := by
    have h1 : n.all (fun c => decide (c.toNat < 128)) = true := by
      rw [List.all_eq_true]
      intro c hc
      exact decide_eq_true_eq.mpr (hname2 c hc).2
    have h2 : (' ' :: v).all (fun c => decide (c.toNat < 128)) = true := by
      simp only [List.all_cons, Bool.and_eq_true]
      refine ⟨by decide, ?_⟩
      rw [List.all_eq_true]
      intro c hc
      have hcv := hvalue c hc
      simp only [decide_eq_true_eq]
      omega
    rw [h1, h2]
    rfl
  simp only [hcond1, hcond2, Bool.false_eq_true, if_false]
  have hsplit : split_field_content ⟨' ' :: v⟩ = .single ⟨' ' :: v⟩ := by
    unfold split_field_content
    have hcontains : (String.mk (' ' :: v)).data.contains ',' = false := by
      simp only [String.data, List.contains_cons]
      have h1 : ((',' : Char) == ' ') = false := by decide
      rw [h1]
      simp only [Bool.false_or]
      rw [Bool.eq_false_iff]
      intro hc
      exact hnocomma (List.elem_iff.mp hc)
    rw [hcontains]
    simp
  rw [hsplit]
  have happ : (" " ++ (⟨v⟩ : String)) = ⟨' ' :: v⟩ := rfl
  rw [happ]

/-- C7 witness: the field `("Content-Type", "text/html")`. -/
theorem headers_parse_line_round_trip_witness :
    Headers.parse_line (Headers.encodeFieldLine "Content-Type" "text/html")
      = .ok (String.mk ("Content-Type".data.map Headers.pyLowerChar),
             .single (" " ++ "text/html")) :=
  headers_parse_line_round_trip "Content-Type" "text/html"
    (by decide) (by decide) (by decide) (by decide)

namespace Huffman

set_option maxRecDepth 100000 in
set_option maxHeartbeats 4000000 in
lemma checkTree_true : checkTree = true := by decide

lemma byteBits_bitsToNat (b0 b1 b2 b3 b4 b5 b6 b7 : Bool) :
    byteBits (bitsToNat [b0, b1, b2, b3, b4, b5, b6, b7])
      = [b0, b1, b2, b3, b4, b5, b6, b7] := by
  revert b0 b1 b2 b3 b4 b5 b6 b7
  decide

lemma byteBits_final (bits : List Bool) (h1 : bits ≠ []) (h2 : bits.length < 8) :
    byteBits ((bitsToNat bits) <<< (8 - bits.length)
        ||| ((1 <<< (8 - bits.length)) - 1))
      = bits ++ List.replicate (8 - bits.length) true := by
  rcases bits with _ | ⟨b0, _ | ⟨b1, _ | ⟨b2, _ | ⟨b3, _ | ⟨b4, _ | ⟨b5, _ | ⟨b6, _ | ⟨b7, rest⟩⟩⟩⟩⟩⟩⟩⟩
  · exact absurd rfl h1
  · revert b0; decide
  · revert b0 b1; decide
  · revert b0 b1 b2; decide
  · revert b0 b1 b2 b3; decide
  · revert b0 b1 b2 b3 b4; decide
  · revert b0 b1 b2 b3 b4 b5; decide
  · revert b0 b1 b2 b3 b4 b5 b6; decide
  · simp at h2; omega

lemma pack_flatten (bits : List Bool) :
    ((pack bits).map byteBits).flatten
      = bits ++ List.replicate ((8 - bits.length % 8) % 8) true := by
  induction bits using pack.induct with
  | case1 b0 b1 b2 b3 b4 b5 b6 b7 rest ih =>
    rw [pack]
    simp only [List.map_cons, List.flatten_cons, byteBits_bitsToNat, ih]
    simp only [List.length_cons]
    rw [show rest.length + 1 + 1 + 1 + 1 + 1 + 1 + 1 + 1 = rest.length + 8 by omega,
      Nat.add_mod_right]
    simp
  | case2 => simp [pack]
  | case3 bits h8 hnil =>
    have hne : bits ≠ [] := fun hh => hnil hh
    have hlt : bits.length < 8 := by
      rcases bits with _ | ⟨b0, _ | ⟨b1, _ | ⟨b2, _ | ⟨b3, _ | ⟨b4, _ | ⟨b5, _ | ⟨b6, _ | ⟨b7, rest⟩⟩⟩⟩⟩⟩⟩⟩
      · exact absurd rfl hne
      · simp
      · simp
      · simp
      · simp
      · simp
      · simp
      · simp
      · exact absurd rfl (by intro hh; exact h8 b0 b1 b2 b3 b4 b5 b6 b7 rest hh)
    rw [pack.eq_3 bits h8 hnil]
    simp only [List.map_cons, List.map_nil, List.flatten_cons, List.flatten_nil,
      List.append_nil]
    rw [byteBits_final bits hne hlt]
    have hmod : bits.length % 8 = bits.length := Nat.mod_eq_of_lt hlt
    rw [hmod]
    have hpos : 0 < bits.length := List.length_pos.mpr hne
    have : (8 - bits.length) % 8 = 8 - bits.length := by omega
    rw [this]

lemma decodeBits_append (root : HTree) :
    ∀ (code : List Bool) (cur : HTree) (c : Nat),
      codeLands cur code c = true →
      ∀ rest, decodeBits root (code ++ rest) cur
        = (decodeBits root rest root).map (fun l => c :: l) := by
  intro code
  induction code with
  | nil => intro cur c h rest; simp [codeLands] at h
  | cons b tl ih =>
    intro cur c h rest
    cases tl with
    | nil =>
      simp only [codeLands] at h
      simp only [List.cons_append, List.nil_append, decodeBits]
      cases hs : step cur b with
      | none => rw [hs] at h; simp at h
      | some t =>
        rw [hs] at h
        cases t with
        | leaf c' =>
          simp only [beq_iff_eq] at h
          subst h
          rfl
        | node l r => simp at h
    | cons b2 tl2 =>
      simp only [codeLands] at h
      simp only [List.cons_append, decodeBits]
      cases hs : step cur b with
      | none => rw [hs] at h; simp at h
      | some t =>
        rw [hs] at h
        cases t with
        | leaf c' => simp at h
        | node l r => exact ih (.node l r) c h rest

lemma decodeBits_symbols (root : HTree)
    (hcodes : ∀ c, c < 256 → codeLands root (symbolBits c) c = true) :
    ∀ s : List Nat, (∀ c ∈ s, c < 256) →
      ∀ T, decodeBits root (((s.map symbolBits).flatten) ++ T) root
        = (decodeBits root T root).map (fun l => s ++ l) := by
  intro s
  induction s with
  | nil =>
    intro _ T
    simp only [List.map_nil, List.flatten_nil, List.nil_append]
    cases decodeBits root T root <;> simp
  | cons c cs ih =>
    intro hmem T
    simp only [List.map_cons, List.flatten_cons, List.append_assoc]
    rw [decodeBits_append root (symbolBits c) root c
      (hcodes c (hmem c (by simp)))]
    rw [ih (fun x hx => hmem x (by simp [hx])) T]
    cases decodeBits root T root <;> simp

end Huffman

/-- C4: for every ASCII byte string `s` (all bytes below 128, the empty
string included), `huffman.decode(huffman.encode(s))` succeeds and returns
`s`: the encoder emits the canonical RFC 7541 codes padded with one-bits,
and the decoder walks the tree built from the sorted codebook, so the
padding (at most 7 one-bits, never a complete code) decodes to nothing. -/
theorem huffman_roundtrip (s : List Nat) (h : ∀ c ∈ s, c < 128) :
    Huffman.decode (Huffman.encode s) = some s := by
  have hc := checkTree_true
  unfold checkTree at hc
  unfold decode
  cases hb : buildHuffmanTree with
  | none => rw [hb] at hc; cases hc
  | some root =>
    rw [hb] at hc
    simp only [Bool.and_eq_true, List.all_eq_true] at hc
    obtain ⟨⟨hcodes, hpad⟩, _⟩ := hc
    have hcodes' : ∀ c, c < 256 → codeLands root (symbolBits c) c = true := by
      intro c hclt
      exact hcodes c (List.mem_range.mpr hclt)
    have hpad' : ∀ k, k < 8 → decodeBits root (List.replicate k true) root = some [] := by
      intro k hk
      have := hpad k (List.mem_range.mpr hk)
      simpa using this
    unfold encode
    dsimp only
    rw [pack_flatten]
    rw [decodeBits_symbols root hcodes' s (fun c hcm => by have := h c hcm; omega)]
    rw [hpad' _ (Nat.mod_lt _ (by norm_num))]
    simp

/-- C4 witness: the RFC 7541 example string `www.example.com`. -/
theorem huffman_roundtrip_witness :
    Huffman.decode (Huffman.encode
        [0x77, 0x77, 0x77, 0x2E, 0x65, 0x78, 0x61, 0x6D,
         0x70, 0x6C, 0x65, 0x2E, 0x63, 0x6F, 0x6D])
      = some [0x77, 0x77, 0x77, 0x2E, 0x65, 0x78, 0x61, 0x6D,
              0x70, 0x6C, 0x65, 0x2E, 0x63, 0x6F, 0x6D] :=
  huffman_roundtrip _ (by decide)

/-- C5: evaluating `HpackDecoder.decode` on the not-indexed literal block
`01 00` (first byte with the four high bits clear, low 4 bits holding name
index 1, value the empty string): the yielded pair's first component is the
whole static-table entry `(":authority",)` — the no-indexing branch reads
`self._context[name_index]` without the `[0]` projection every other branch
applies — and not the header-name string `":authority"` the claim
requires. -/
theorem hpack_not_indexed_literal_yields_entry_tuple :
    Hpack.decoderDecode [0x01, 0x00]
      = some [.pair (.entry (":authority", none)) ""]
    ∧ ∀ s : String,
        Hpack.HeaderName.entry (":authority", none) ≠ Hpack.HeaderName.str s :=
  ⟨rfl, fun _ h => Hpack.HeaderName.noConfusion h⟩

end Centimani
